import Mathlib

/-!
Verification of the token-rotation request executor of the peinture
repository.  The definitions below are a shallow embedding of the token
management code that appears, in three structurally identical copies, in
src/services/hfService.ts (HuggingFace), src/services/msService.ts
(ModelScope) and src/unnamed/part_000 (Gitee AI).

Modelling conventions:
- A JavaScript error value is modelled by the pair of its optional
  `message` string and optional numeric `status` field.
- `localStorage` is modelled by a `Bool` availability flag together with a
  `StoredValue` describing the raw persisted value: absent, unparseable
  JSON, or a well-formed record.
- The current day string (getUTCDatesString or getBeijingDateString, both
  impure readers of the clock) is passed as an explicit `today` parameter.
- The async operation passed to the retry executors is modelled as a total
  function from the invocation index and the injected token to an
  `Except JsError` result; a rejected promise is the `.error` case.
- The `Record<string, boolean>` of exhausted tokens is modelled as a
  `List String` of the keys set to true, in insertion order; setting an
  already-present key is observably a no-op, which `insertExhausted`
  mirrors.
-/

/-- Model of a JavaScript error value as inspected by the quota
classifiers: an optional `message` string and an optional numeric
`status` field. -/
structure JsError where
  message : Option String
  status : Option Int
deriving DecidableEq, Repr

/-- An error thrown via `new Error(msg)`: it has the given message and no
numeric status field. -/
def jsError (msg : String) : JsError := ⟨some msg, none⟩

def QUOTA_ERROR_KEY : String := "error_quota_exhausted"

def MS_TOKEN_REQUIRED_KEY : String := "error_ms_token_required"

def MS_TOKEN_EXHAUSTED_KEY : String := "error_ms_token_exhausted"

def GITEE_TOKEN_REQUIRED_KEY : String := "error_gitee_token_required"

def GITEE_TOKEN_EXHAUSTED_KEY : String := "error_gitee_token_exhausted"

def API_CONNECTION_KEY : String := "error_api_connection"

/-- The persisted per-provider token status record:
`interface TokenStatusStore { date: string; exhausted: Record<string, boolean> }`. -/
structure TokenStatusStore where
  date : String
  exhausted : List String
deriving DecidableEq, Repr

/-- The raw value persisted under the provider status key in
localStorage: absent (`getItem` returned null), unparseable
(`JSON.parse` throws), or a well-formed record. -/
inductive StoredValue where
  | absent : StoredValue
  | corrupt : StoredValue
  | record : TokenStatusStore → StoredValue
deriving DecidableEq, Repr

/-- `getTokenStatusStore` from hfService.ts (identical in msService.ts and
part_000 up to the day function, which is the `today` parameter here):
returns the default empty record when localStorage is unavailable, the raw
value is absent or unparseable, or the persisted day differs from today;
otherwise returns the persisted record. -/
def getTokenStatusStore (today : String) (storageAvailable : Bool)
    (stored : StoredValue) : TokenStatusStore :=
  let defaultStore : TokenStatusStore := ⟨today, []⟩
  if !storageAvailable then defaultStore
  else
    match stored with
    | .absent => defaultStore
    | .corrupt => defaultStore
    | .record s => if s.date ≠ today then defaultStore else s

/-- `saveTokenStatusStore`: writes the record back when localStorage is
available, otherwise leaves the persisted value unchanged. -/
def saveTokenStatusStore (storageAvailable : Bool) (stored : StoredValue)
    (s : TokenStatusStore) : StoredValue :=
  if storageAvailable then .record s else stored

/-- Setting `store.exhausted[token] = true` on a JavaScript Record:
adds the key at the end when absent, observably a no-op when present. -/
def insertExhausted (tok : String) (exh : List String) : List String :=
  if tok ∈ exh then exh else exh ++ [tok]

/-- `markTokenExhausted`: loads the current record, sets the token flag,
and persists the result. -/
def markTokenExhausted (today : String) (storageAvailable : Bool)
    (stored : StoredValue) (tok : String) : StoredValue :=
  let s := getTokenStatusStore today storageAvailable stored
  saveTokenStatusStore storageAvailable stored ⟨s.date, insertExhausted tok s.exhausted⟩

/-- Splitting a character list on the comma character, mirroring the
JavaScript `input.split(',')`. -/
def splitOnCommaAux : List Char → List Char → List String
  | [], acc => [String.mk acc.reverse]
  | c :: rest, acc =>
    if c = ',' then String.mk acc.reverse :: splitOnCommaAux rest []
    else splitOnCommaAux rest (c :: acc)

def splitOnComma (s : String) : List String := splitOnCommaAux s.data []

/-- JavaScript `String.prototype.trim`: drops whitespace from both ends. -/
def trimString (s : String) : String :=
  String.mk (((s.data.dropWhile Char.isWhitespace).reverse.dropWhile
    Char.isWhitespace).reverse)

/-- `getTokens` from hfService.ts (identical body in `getMsTokens` and
`getGiteeTokens`): the argument is the resolved raw configuration value, a
string or null.  A null or empty input yields no tokens; otherwise the
input is split on commas, each entry trimmed, and empty entries dropped. -/
def getTokens (rawInput : Option String) : List String :=
  match rawInput with
  | none => []
  | some input =>
    if input = "" then []
    else ((splitOnComma input).map trimString).filter (fun t => t.length > 0)

/-- The `{total, exhausted, active}` aggregate returned by
`getTokenStats` / `getMsTokenStats` / `getGiteeTokenStats`. -/
structure TokenStats where
  total : Nat
  exhausted : Nat
  active : Nat
deriving DecidableEq, Repr

/-- `getTokenStats`: counts the configured tokens that are flagged in the
given status record. -/
def getTokenStats (rawInput : Option String) (store : TokenStatusStore) :
    TokenStats :=
  let tokens := getTokens rawInput
  let total := tokens.length
  let exhausted := (tokens.filter (fun t => decide (t ∈ store.exhausted))).length
  ⟨total, exhausted, total - exhausted⟩

/-- `getNextAvailableToken`: the first configured token not flagged in the
exhausted record, or none.  The JavaScript source ends in `|| null`, which
also turns a found empty-string token into null; the inner `if` mirrors
that coercion. -/
def nextAvailableToken (tokens : List String) (exh : List String) :
    Option String :=
  match tokens.find? (fun t => decide (t ∉ exh)) with
  | some t => if t = "" then none else some t
  | none => none

/-- Boolean test that `p` is a leading segment of `l`. -/
def isPrefixB : List Char → List Char → Bool
  | [], _ => true
  | _ :: _, [] => false
  | a :: as, b :: bs => a == b && isPrefixB as bs

/-- Boolean test that the needle `p` occurs contiguously inside `l`,
mirroring JavaScript `String.prototype.includes` (case-sensitive). -/
def containsSub : List Char → List Char → Bool
  | [], p => isPrefixB p []
  | c :: rest, p => isPrefixB p (c :: rest) || containsSub rest p

def containsSubstr (s pat : String) : Bool := containsSub s.data pat.data

/-- `error.message?.includes(pat)`: false when the message is absent. -/
def msgIncludes (e : JsError) (pat : String) : Bool :=
  match e.message with
  | some m => containsSubstr m pat
  | none => false

/-- The quota classifier of `runWithTokenRetry` in hfService.ts:
`error.message === QUOTA_ERROR_KEY || error.message?.includes("429") || error.status === 429`. -/
def hfIsQuotaError (e : JsError) : Bool :=
  (e.message == some QUOTA_ERROR_KEY) || msgIncludes e "429" ||
    (e.status == some 429)

/-- The quota classifier of `runWithMsTokenRetry` in msService.ts. -/
def msIsQuotaError (e : JsError) : Bool :=
  msgIncludes e "429" || (e.status == some 429) || msgIncludes e "quota" ||
    msgIncludes e "credit" || msgIncludes e "Arrearage" || msgIncludes e "Bill"

/-- The quota classifier of `runWithGiteeTokenRetry` in part_000. -/
def giteeIsQuotaError (e : JsError) : Bool :=
  msgIncludes e "429" || (e.status == some 429) || msgIncludes e "quota" ||
    msgIncludes e "credit"

/-- Observable outcome of one `execute` call: the returned or thrown
value, the final exhausted list of the persisted record, the final value
of the `attempts` counter, and how many times the caller-supplied
operation was invoked. -/
structure RunResult (α : Type) where
  result : Except JsError α
  exhausted : List String
  attempts : Nat
  invocations : Nat

/-- The shared retry loop body of `runWithTokenRetry`,
`runWithMsTokenRetry` and `runWithGiteeTokenRetry` (the three loop bodies
are textually identical up to the classifier and the exhausted error
key).  `fuel` is the remaining attempt budget `maxAttempts - attempts`;
the `while (attempts < maxAttempts)` loop of the source runs exactly as
long as fuel is positive.  The day is fixed for the duration of the call
and localStorage is available, so the persisted record is carried as the
`exh` list. -/
def runRetryLoop {α : Type} (isQuota : JsError → Bool) (exhaustedKey : String)
    (op : Nat → String → Except JsError α) (tokens : List String) :
    Nat → List String → Nat → Nat → Option JsError → RunResult α
  | 0, exh, attempts, invs, lastErr =>
    ⟨.error (lastErr.getD (jsError API_CONNECTION_KEY)), exh, attempts, invs⟩
  | fuel + 1, exh, attempts, invs, _ =>
    match nextAvailableToken tokens exh with
    | none => ⟨.error (jsError exhaustedKey), exh, attempts + 1, invs⟩
    | some tok =>
      match op invs tok with
      | .ok v => ⟨.ok v, exh, attempts + 1, invs + 1⟩
      | .error e =>
        if isQuota e then
          runRetryLoop isQuota exhaustedKey op tokens fuel
            (insertExhausted tok exh) (attempts + 1) (invs + 1) (some e)
        else ⟨.error e, exh, attempts + 1, invs + 1⟩

/-- `runWithTokenRetry` from hfService.ts: with no tokens configured the
operation runs once with a null token and its result is returned
verbatim; otherwise the retry loop runs with budget `tokens.length + 1`. -/
def runWithTokenRetry {α : Type} (op : Nat → Option String → Except JsError α)
    (tokens : List String) (exh : List String) : RunResult α :=
  if tokens.isEmpty then ⟨op 0 none, exh, 0, 1⟩
  else
    runRetryLoop hfIsQuotaError QUOTA_ERROR_KEY (fun i t => op i (some t))
      tokens (tokens.length + 1) exh 0 0 none

/-- `runWithMsTokenRetry` from msService.ts: with no tokens configured it
throws `error_ms_token_required` without invoking the operation. -/
def runWithMsTokenRetry {α : Type} (op : Nat → String → Except JsError α)
    (tokens : List String) (exh : List String) : RunResult α :=
  if tokens.isEmpty then ⟨.error (jsError MS_TOKEN_REQUIRED_KEY), exh, 0, 0⟩
  else
    runRetryLoop msIsQuotaError MS_TOKEN_EXHAUSTED_KEY op tokens
      (tokens.length + 1) exh 0 0 none

/-- `runWithGiteeTokenRetry` from part_000: with no tokens configured it
throws `error_gitee_token_required` without invoking the operation. -/
def runWithGiteeTokenRetry {α : Type} (op : Nat → String → Except JsError α)
    (tokens : List String) (exh : List String) : RunResult α :=
  if tokens.isEmpty then ⟨.error (jsError GITEE_TOKEN_REQUIRED_KEY), exh, 0, 0⟩
  else
    runRetryLoop giteeIsQuotaError GITEE_TOKEN_EXHAUSTED_KEY op tokens
      (tokens.length + 1) exh 0 0 none

/-! ### Helper lemmas about the substring test -/

theorem isPrefixB_iff : ∀ (p l : List Char), isPrefixB p l = true ↔ ∃ t, l = p ++ t := by
  intro p
  induction p with
  | nil =>
    intro l
    simp only [isPrefixB, List.nil_append]
    exact ⟨fun _ => ⟨l, rfl⟩, fun _ => trivial⟩
  | cons a as ih =>
    intro l
    cases l with
    | nil =>
      simp [isPrefixB]
    | cons b bs =>
      rw [show isPrefixB (a :: as) (b :: bs) = (a == b && isPrefixB as bs) from rfl]
      rw [Bool.and_eq_true, beq_iff_eq, ih bs]
      constructor
      · rintro ⟨rfl, t, rfl⟩
        exact ⟨t, rfl⟩
      · rintro ⟨t, ht⟩
        rw [List.cons_append] at ht
        injection ht with h1 h2
        exact ⟨h1.symm, t, h2⟩

theorem containsSub_iff : ∀ (l p : List Char), containsSub l p = true ↔ ∃ pre post, l = pre ++ p ++ post := by
  intro l
  induction l with
  | nil =>
    intro p
    rw [show containsSub [] p = isPrefixB p [] from rfl, isPrefixB_iff]
    constructor
    · rintro ⟨t, ht⟩
      rcases List.append_eq_nil.mp ht.symm with ⟨rfl, rfl⟩
      exact ⟨[], [], rfl⟩
    · rintro ⟨pre, post, hp⟩
      rcases List.append_eq_nil.mp hp.symm with ⟨h1, rfl⟩
      rcases List.append_eq_nil.mp h1 with ⟨rfl, rfl⟩
      exact ⟨[], rfl⟩
  | cons c rest ih =>
    intro p
    rw [show containsSub (c :: rest) p = (isPrefixB p (c :: rest) || containsSub rest p) from rfl]
    rw [Bool.or_eq_true, isPrefixB_iff, ih]
    constructor
    · rintro (⟨t, ht⟩ | ⟨pre, post, hp⟩)
      · exact ⟨[], t, by simpa using ht⟩
      · exact ⟨c :: pre, post, by simp [hp]⟩
    · rintro ⟨pre, post, hp⟩
      cases pre with
      | nil =>
        exact Or.inl ⟨post, by simpa using hp⟩
      | cons c2 pre2 =>
        simp only [List.cons_append] at hp
        injection hp with h1 h2
        exact Or.inr ⟨pre2, post, h2⟩

/-- Characterization of a successful `message?.includes(pat)` test. -/
theorem msgIncludes_iff (e : JsError) (pat : String) :
    msgIncludes e pat = true ↔
      ∃ m, e.message = some m ∧ ∃ pre post, m.data = pre ++ pat.data ++ post := by
  cases hm : e.message with
  | none => simp [msgIncludes, hm]
  | some m =>
    simp only [msgIncludes, hm, containsSubstr, containsSub_iff, Option.some.injEq]
    constructor
    · rintro ⟨pre, post, hp⟩
      exact ⟨m, rfl, pre, post, hp⟩
    · rintro ⟨m2, rfl, pre, post, hp⟩
      exact ⟨pre, post, hp⟩

/-! ### Helper lemmas about the token status store -/

theorem insertExhausted_of_not_mem {tok : String} {exh : List String}
    (h : tok ∉ exh) : insertExhausted tok exh = exh ++ [tok] := by
  simp [insertExhausted, h]

theorem mem_insertExhausted_self (tok : String) (exh : List String) :
    tok ∈ insertExhausted tok exh := by
  by_cases h : tok ∈ exh <;> simp [insertExhausted, h]

theorem insertExhausted_idem (tok : String) (exh : List String) :
    insertExhausted tok (insertExhausted tok exh) = insertExhausted tok exh := by
  by_cases h : tok ∈ exh
  · simp [insertExhausted, h]
  · rw [insertExhausted_of_not_mem h]
    simp [insertExhausted]

theorem getTokenStatusStore_date (today : String) (avail : Bool)
    (stored : StoredValue) : (getTokenStatusStore today avail stored).date = today := by
  cases stored with
  | absent => cases avail <;> simp [getTokenStatusStore]
  | corrupt => cases avail <;> simp [getTokenStatusStore]
  | record s =>
    cases avail with
    | false => simp [getTokenStatusStore]
    | true =>
      by_cases h : s.date = today
      · simp [getTokenStatusStore, h]
      · simp [getTokenStatusStore, h]

/-! ### Helper lemmas about the token selector -/

theorem nextAvailableToken_all_exhausted :
    ∀ (tokens exh : List String), (∀ t ∈ tokens, t ∈ exh) →
    nextAvailableToken tokens exh = none := by
  intro tokens
  induction tokens with
  | nil => intro exh _; rfl
  | cons d ds ih =>
    intro exh h
    have hdec : (decide (d ∉ exh)) = false := by simp [h d (by simp)]
    have hrest := ih exh (fun s hs => h s (by simp [hs]))
    simpa [nextAvailableToken, List.find?, hdec] using hrest

theorem nextAvailableToken_skip :
    ∀ (done : List String) (t : String) (rest exh : List String),
    (∀ s ∈ done, s ∈ exh) → t ∉ exh → t ≠ "" →
    nextAvailableToken (done ++ t :: rest) exh = some t := by
  intro done
  induction done with
  | nil =>
    intro t rest exh _ ht hne
    have hdec : (decide (t ∉ exh)) = true := decide_eq_true ht
    simp [nextAvailableToken, List.find?, hdec, hne]
  | cons d ds ih =>
    intro t rest exh hdone ht hne
    have hdec : (decide (d ∉ exh)) = false := by simp [hdone d (by simp)]
    have hrest := ih t rest exh (fun s hs => hdone s (by simp [hs])) ht hne
    simpa [nextAvailableToken, List.find?, hdec] using hrest

theorem isEmpty_false_of_ne_nil {l : List String} (h : l ≠ []) :
    l.isEmpty = false := by
  cases l with
  | nil => exact absurd rfl h
  | cons a as => rfl

/-! ### Single-step unfolding lemmas for the retry loop -/

theorem runRetryLoop_step_none {α : Type} {isQuota : JsError → Bool}
    {exhKey : String} {op : Nat → String → Except JsError α}
    {tokens exh : List String} (fuel attempts invs : Nat)
    (lastErr : Option JsError)
    (hsel : nextAvailableToken tokens exh = none) :
    runRetryLoop isQuota exhKey op tokens (fuel + 1) exh attempts invs lastErr
      = ⟨.error (jsError exhKey), exh, attempts + 1, invs⟩ := by
  simp only [runRetryLoop, hsel]

theorem runRetryLoop_step_ok {α : Type} {isQuota : JsError → Bool}
    {exhKey : String} {op : Nat → String → Except JsError α}
    {tokens exh : List String} {tok : String} {v : α}
    (fuel attempts invs : Nat) (lastErr : Option JsError)
    (hsel : nextAvailableToken tokens exh = some tok)
    (hop : op invs tok = .ok v) :
    runRetryLoop isQuota exhKey op tokens (fuel + 1) exh attempts invs lastErr
      = ⟨.ok v, exh, attempts + 1, invs + 1⟩ := by
  simp only [runRetryLoop, hsel, hop]

theorem runRetryLoop_step_quota {α : Type} {isQuota : JsError → Bool}
    {exhKey : String} {op : Nat → String → Except JsError α}
    {tokens exh : List String} {tok : String} {e : JsError}
    (fuel attempts invs : Nat) (lastErr : Option JsError)
    (hsel : nextAvailableToken tokens exh = some tok)
    (hop : op invs tok = .error e) (hq : isQuota e = true) :
    runRetryLoop isQuota exhKey op tokens (fuel + 1) exh attempts invs lastErr
      = runRetryLoop isQuota exhKey op tokens fuel (insertExhausted tok exh)
          (attempts + 1) (invs + 1) (some e) := by
  simp only [runRetryLoop, hsel, hop, hq, if_true]

theorem runRetryLoop_step_hard {α : Type} {isQuota : JsError → Bool}
    {exhKey : String} {op : Nat → String → Except JsError α}
    {tokens exh : List String} {tok : String} {e : JsError}
    (fuel attempts invs : Nat) (lastErr : Option JsError)
    (hsel : nextAvailableToken tokens exh = some tok)
    (hop : op invs tok = .error e) (hq : isQuota e = false) :
    runRetryLoop isQuota exhKey op tokens (fuel + 1) exh attempts invs lastErr
      = ⟨.error e, exh, attempts + 1, invs + 1⟩ := by
  simp only [runRetryLoop, hsel, hop, hq, if_false, Bool.false_eq_true]

/-! ### Behavior of the retry loop under the scenarios of the spec -/

theorem runRetryLoop_all_quota {α : Type} (isQuota : JsError → Bool)
    (exhKey : String) (op : Nat → String → Except JsError α)
    (hop : ∀ i t, ∃ e, op i t = .error e ∧ isQuota e = true) :
    ∀ (todo done exh : List String) (attempts invs : Nat)
      (lastErr : Option JsError),
    (∀ t ∈ done, t ∈ exh) → (∀ t ∈ todo, t ∉ exh) → todo.Nodup →
    (∀ t ∈ todo, t ≠ "") →
    runRetryLoop isQuota exhKey op (done ++ todo) (todo.length + 1) exh
        attempts invs lastErr
      = ⟨.error (jsError exhKey), exh ++ todo, attempts + todo.length + 1,
          invs + todo.length⟩ := by
  intro todo
  induction todo with
  | nil =>
    intro done exh attempts invs lastErr hdone _ _ _
    have hnone : nextAvailableToken (done ++ []) exh = none := by
      rw [List.append_nil]
      exact nextAvailableToken_all_exhausted done exh hdone
    rw [show ([] : List String).length + 1 = 0 + 1 from rfl,
      runRetryLoop_step_none 0 attempts invs lastErr hnone]
    simp
  | cons t ts ih =>
    intro done exh attempts invs lastErr hdone htodo hnodup hne
    have hsel : nextAvailableToken (done ++ t :: ts) exh = some t :=
      nextAvailableToken_skip done t ts exh hdone (htodo t (by simp))
        (hne t (by simp))
    obtain ⟨e, he, hq⟩ := hop invs t
    have hins : insertExhausted t exh = exh ++ [t] :=
      insertExhausted_of_not_mem (htodo t (by simp))
    have hrec := ih (done ++ [t]) (exh ++ [t]) (attempts + 1) (invs + 1)
      (some e)
      (fun s hs => by
        rcases List.mem_append.mp hs with h1 | h1
        · exact List.mem_append.mpr (Or.inl (hdone s h1))
        · exact List.mem_append.mpr (Or.inr h1))
      (fun s hs hmem => by
        rcases List.mem_append.mp hmem with h1 | h1
        · exact htodo s (by simp [hs]) h1
        · have hst : s = t := by simpa using h1
          exact (List.nodup_cons.mp hnodup).1 (hst ▸ hs))
      (List.nodup_cons.mp hnodup).2
      (fun s hs => hne s (by simp [hs]))
    rw [← List.append_cons] at hrec
    rw [show (t :: ts).length + 1 = (ts.length + 1) + 1 from by simp,
      runRetryLoop_step_quota (ts.length + 1) attempts invs lastErr hsel he hq,
      hins, hrec]
    simp only [RunResult.mk.injEq, List.length_cons]
    refine ⟨by trivial, by simp, by omega, by omega⟩

theorem runRetryLoop_quota_prefix_success {α : Type} (isQuota : JsError → Bool)
    (exhKey : String) (op : Nat → String → Except JsError α) (target : String)
    (v : α) (hsucc : ∀ i, op i target = .ok v) :
    ∀ (pre : List String) (done after exh : List String)
      (attempts invs fuel : Nat) (lastErr : Option JsError),
    (∀ i t, t ∈ pre → ∃ e, op i t = .error e ∧ isQuota e = true) →
    (∀ t ∈ done, t ∈ exh) →
    (∀ t ∈ pre, t ∉ exh) → target ∉ exh →
    (pre ++ [target]).Nodup →
    (∀ t ∈ pre, t ≠ "") → target ≠ "" →
    pre.length + 1 ≤ fuel →
    runRetryLoop isQuota exhKey op (done ++ (pre ++ target :: after)) fuel exh
        attempts invs lastErr
      = ⟨.ok v, exh ++ pre, attempts + pre.length + 1,
          invs + pre.length + 1⟩ := by
  intro pre
  induction pre with
  | nil =>
    intro done after exh attempts invs fuel lastErr _ hdone _ htna _ _ hne hfuel
    cases fuel with
    | zero => exact absurd hfuel (by omega)
    | succ f =>
      have hsel : nextAvailableToken (done ++ ([] ++ target :: after)) exh
          = some target := by
        rw [List.nil_append]
        exact nextAvailableToken_skip done target after exh hdone htna hne
      rw [runRetryLoop_step_ok f attempts invs lastErr hsel (hsucc invs)]
      simp
  | cons t ts ih =>
    intro done after exh attempts invs fuel lastErr hfail hdone hpre htna
      hnodup hnes hne hfuel
    cases fuel with
    | zero => exact absurd hfuel (by omega)
    | succ f =>
      have hsel : nextAvailableToken (done ++ (t :: ts ++ target :: after)) exh
          = some t := by
        rw [List.cons_append]
        exact nextAvailableToken_skip done t (ts ++ target :: after) exh hdone
          (hpre t (by simp)) (hnes t (by simp))
      obtain ⟨e, he, hq⟩ := hfail invs t (by simp)
      have hins : insertExhausted t exh = exh ++ [t] :=
        insertExhausted_of_not_mem (hpre t (by simp))
      have hnodup2 : t ∉ ts ++ [target] ∧ (ts ++ [target]).Nodup := by
        rw [show (t :: ts) ++ [target] = t :: (ts ++ [target]) from rfl,
          List.nodup_cons] at hnodup
        exact hnodup
      have hrec := ih (done ++ [t]) after (exh ++ [t]) (attempts + 1)
        (invs + 1) f (some e)
        (fun i s hs => hfail i s (by simp [hs]))
        (fun s hs => by
          rcases List.mem_append.mp hs with h1 | h1
          · exact List.mem_append.mpr (Or.inl (hdone s h1))
          · exact List.mem_append.mpr (Or.inr h1))
        (fun s hs hmem => by
          rcases List.mem_append.mp hmem with h1 | h1
          · exact hpre s (by simp [hs]) h1
          · have hst : s = t := by simpa using h1
            exact hnodup2.1 (by simp [hst ▸ hs]))
        (by
          intro hmem
          rcases List.mem_append.mp hmem with h1 | h1
          · exact htna h1
          · have hst : target = t := by simpa using h1
            exact hnodup2.1 (by simp [hst]))
        hnodup2.2
        (fun s hs => hnes s (by simp [hs]))
        hne
        (by simpa using Nat.le_of_succ_le_succ hfuel)
      rw [show (done ++ [t]) ++ (ts ++ target :: after)
          = done ++ (t :: ts ++ target :: after) from by simp] at hrec
      rw [runRetryLoop_step_quota f attempts invs lastErr hsel he hq, hins,
        hrec]
      simp only [RunResult.mk.injEq, List.length_cons]
      refine ⟨by trivial, by simp, by omega, by omega⟩

theorem runRetryLoop_bound {α : Type} (isQuota : JsError → Bool)
    (exhKey : String) (op : Nat → String → Except JsError α)
    (tokens : List String) :
    ∀ (fuel : Nat) (exh : List String) (attempts invs : Nat)
      (lastErr : Option JsError),
    (runRetryLoop isQuota exhKey op tokens fuel exh attempts invs
        lastErr).attempts ≤ attempts + fuel ∧
    (runRetryLoop isQuota exhKey op tokens fuel exh attempts invs
        lastErr).invocations ≤ invs + fuel := by
  intro fuel
  induction fuel with
  | zero =>
    intro exh attempts invs lastErr
    exact ⟨Nat.le_refl _, Nat.le_refl _⟩
  | succ f ih =>
    intro exh attempts invs lastErr
    cases hsel : nextAvailableToken tokens exh with
    | none =>
      rw [runRetryLoop_step_none f attempts invs lastErr hsel]
      exact ⟨by show attempts + 1 ≤ attempts + (f + 1); omega,
        by show invs ≤ invs + (f + 1); omega⟩
    | some tok =>
      cases hop : op invs tok with
      | ok v =>
        rw [runRetryLoop_step_ok f attempts invs lastErr hsel hop]
        exact ⟨by show attempts + 1 ≤ attempts + (f + 1); omega,
          by show invs + 1 ≤ invs + (f + 1); omega⟩
      | error e =>
        cases hq : isQuota e with
        | true =>
          rw [runRetryLoop_step_quota f attempts invs lastErr hsel hop hq]
          have h1 := (ih (insertExhausted tok exh) (attempts + 1) (invs + 1)
            (some e)).1
          have h2 := (ih (insertExhausted tok exh) (attempts + 1) (invs + 1)
            (some e)).2
          exact ⟨by omega, by omega⟩
        | false =>
          rw [runRetryLoop_step_hard f attempts invs lastErr hsel hop hq]
          exact ⟨by show attempts + 1 ≤ attempts + (f + 1); omega,
            by show invs + 1 ≤ invs + (f + 1); omega⟩

/-! ### Claims -/

/-- C5: for every provider, every configured credential list of length N
and every operation, execute terminates with its retry loop bounded by
N + 1 iterations: the final attempts counter and the number of operation
invocations are both at most N + 1. -/
theorem c5_execute_terminates_bounded {α : Type}
    (ophf : Nat → Option String → Except JsError α)
    (opms opgit : Nat → String → Except JsError α)
    (tokens exh : List String) :
    ((runWithTokenRetry ophf tokens exh).attempts ≤ tokens.length + 1 ∧
      (runWithTokenRetry ophf tokens exh).invocations ≤ tokens.length + 1) ∧
    ((runWithMsTokenRetry opms tokens exh).attempts ≤ tokens.length + 1 ∧
      (runWithMsTokenRetry opms tokens exh).invocations ≤ tokens.length + 1) ∧
    ((runWithGiteeTokenRetry opgit tokens exh).attempts ≤ tokens.length + 1 ∧
      (runWithGiteeTokenRetry opgit tokens exh).invocations
        ≤ tokens.length + 1) := by
  refine ⟨?_, ?_, ?_⟩
  · rw [runWithTokenRetry]
    split
    · exact ⟨by show (0 : Nat) ≤ tokens.length + 1; omega,
        by show (1 : Nat) ≤ tokens.length + 1; omega⟩
    · have hb := runRetryLoop_bound hfIsQuotaError QUOTA_ERROR_KEY
        (fun i t => ophf i (some t)) tokens (tokens.length + 1) exh 0 0 none
      exact ⟨by have := hb.1; omega, by have := hb.2; omega⟩
  · rw [runWithMsTokenRetry]
    split
    · exact ⟨by show (0 : Nat) ≤ tokens.length + 1; omega,
        by show (0 : Nat) ≤ tokens.length + 1; omega⟩
    · have hb := runRetryLoop_bound msIsQuotaError MS_TOKEN_EXHAUSTED_KEY
        opms tokens (tokens.length + 1) exh 0 0 none
      exact ⟨by have := hb.1; omega, by have := hb.2; omega⟩
  · rw [runWithGiteeTokenRetry]
    split
    · exact ⟨by show (0 : Nat) ≤ tokens.length + 1; omega,
        by show (0 : Nat) ≤ tokens.length + 1; omega⟩
    · have hb := runRetryLoop_bound giteeIsQuotaError GITEE_TOKEN_EXHAUSTED_KEY
        opgit tokens (tokens.length + 1) exh 0 0 none
      exact ⟨by have := hb.1; omega, by have := hb.2; omega⟩

/-- C6: with an empty credential list, ModelScope and Gitee fail
immediately with their credential-required error and never invoke the
operation, while HuggingFace invokes the operation exactly once with a
null token and returns its result or error verbatim, without touching the
exhaustion record. -/
theorem c6_empty_credentials {α : Type}
    (ophf : Nat → Option String → Except JsError α)
    (opms opgit : Nat → String → Except JsError α) (exh : List String) :
    runWithMsTokenRetry opms [] exh
        = ⟨.error (jsError MS_TOKEN_REQUIRED_KEY), exh, 0, 0⟩ ∧
    runWithGiteeTokenRetry opgit [] exh
        = ⟨.error (jsError GITEE_TOKEN_REQUIRED_KEY), exh, 0, 0⟩ ∧
    runWithTokenRetry ophf [] exh = ⟨ophf 0 none, exh, 0, 1⟩ :=
  ⟨rfl, rfl, rfl⟩

/-- C7: a record persisted under a different day key than the current one
is loaded as the fresh empty record, so a credential marked exhausted
yesterday is selected again today. -/
theorem c7_day_rollover (today yesterday a : String)
    (rest prevExhausted : List String)
    (hday : yesterday ≠ today) (ha : a ≠ "") :
    getTokenStatusStore today true (.record ⟨yesterday, prevExhausted⟩)
        = ⟨today, []⟩ ∧
    nextAvailableToken (a :: rest)
        (getTokenStatusStore today true (.record ⟨yesterday, [a]⟩)).exhausted
      = some a := by
  have hload : ∀ e : List String,
      getTokenStatusStore today true (.record ⟨yesterday, e⟩) = ⟨today, []⟩ := by
    intro e
    simp [getTokenStatusStore, hday]
  refine ⟨hload _, ?_⟩
  rw [hload [a]]
  have hdec : (decide (a ∉ ([] : List String))) = true := by simp
  simp [nextAvailableToken, List.find?, hdec, ha]

/-- C7 witness at concrete inputs. -/
theorem c7_day_rollover_witness :
    getTokenStatusStore "2024-05-02" true (.record ⟨"2024-05-01", ["A"]⟩)
        = ⟨"2024-05-02", []⟩ ∧
    nextAvailableToken ["A"]
        (getTokenStatusStore "2024-05-02" true
          (.record ⟨"2024-05-01", ["A"]⟩)).exhausted
      = some "A" :=
  ⟨(c7_day_rollover "2024-05-02" "2024-05-01" "A" [] ["A"] (by decide)
      (by decide)).1,
    (c7_day_rollover "2024-05-02" "2024-05-01" "A" [] ["A"] (by decide)
      (by decide)).2⟩

/-- C8: parseCredentials splits on commas, trims entries, drops empty
entries, preserves order and does not de-duplicate; marking "a" exhausted
makes the selector skip both occurrences of "a" and return "b". -/
theorem c8_parse_credentials_no_dedup :
    getTokens (some "a,a,b") = ["a", "a", "b"] ∧
    getTokens (some " a ,, b ") = ["a", "b"] ∧
    insertExhausted "a" [] = ["a"] ∧
    nextAvailableToken ["a", "a", "b"] ["a"] = some "b" :=
  ⟨by decide, by decide, by decide, by decide⟩

/-- C9: with the persistence medium available, markExhausted followed by
load shows the credential in the exhausted set, and a second markExhausted
with the same credential leaves the persisted value unchanged. -/
theorem c9_mark_load_roundtrip_idempotent (today : String)
    (stored : StoredValue) (c : String) :
    c ∈ (getTokenStatusStore today true
        (markTokenExhausted today true stored c)).exhausted ∧
    markTokenExhausted today true (markTokenExhausted today true stored c) c
      = markTokenExhausted today true stored c := by
  have hdate := getTokenStatusStore_date today true stored
  have hmark : markTokenExhausted today true stored c
      = .record ⟨today,
          insertExhausted c (getTokenStatusStore today true stored).exhausted⟩ := by
    simp [markTokenExhausted, saveTokenStatusStore, hdate]
  have hload : ∀ x : List String,
      getTokenStatusStore today true (.record ⟨today, x⟩) = ⟨today, x⟩ := by
    intro x
    simp [getTokenStatusStore]
  constructor
  · rw [hmark, hload]
    exact mem_insertExhausted_self c _
  · rw [hmark]
    simp [markTokenExhausted, saveTokenStatusStore, hload,
      insertExhausted_idem]

/-- C10: loading the status store is total, and each degraded situation
(unavailable medium, absent raw value, unparseable raw value, mismatched
day key) yields the fresh empty default record for the current day. -/
theorem c10_load_total_defaults (today : String) (avail : Bool)
    (stored : StoredValue) (s : TokenStatusStore) :
    getTokenStatusStore today false stored = ⟨today, []⟩ ∧
    getTokenStatusStore today avail .absent = ⟨today, []⟩ ∧
    getTokenStatusStore today avail .corrupt = ⟨today, []⟩ ∧
    (s.date ≠ today → getTokenStatusStore today true (.record s)
      = ⟨today, []⟩) := by
  refine ⟨by simp [getTokenStatusStore], ?_, ?_, ?_⟩
  · cases avail <;> simp [getTokenStatusStore]
  · cases avail <;> simp [getTokenStatusStore]
  · intro h
    simp [getTokenStatusStore, h]

/-- C10 witness at concrete inputs. -/
theorem c10_load_total_defaults_witness :
    getTokenStatusStore "2024-06-10" true (.record ⟨"2024-06-09", ["x", "y"]⟩)
      = ⟨"2024-06-10", []⟩ :=
  (c10_load_total_defaults "2024-06-10" true .absent
    ⟨"2024-06-09", ["x", "y"]⟩).2.2.2 (by decide)

/-- C1 counterexample: with the duplicate credential list ["a", "a"]
(N = 2) and an operation that always raises a quota failure, execute makes
only 2 attempts, not N + 1 = 3 as the claim states for every list. -/
theorem c1_counterexample :
    ¬ ((runWithMsTokenRetry
        (fun _ _ => (Except.error (jsError "429") : Except JsError Nat))
        ["a", "a"] []).attempts = ["a", "a"].length + 1) := by
  decide

/-- C1 (amended): for every nonempty list of N pairwise-distinct,
nonempty-string configured credentials, starting from a fresh empty
exhaustion record, an operation that raises a quota-classified failure on
every invocation makes execute perform exactly N + 1 attempts (invoking
the operation N times), fail with the provider's exhausted terminal
error, and leave all N credentials marked exhausted, so stats reports
exhausted = N. -/
theorem c1_always_quota_exhausts {α : Type}
    (tokens : List String) (raw : Option String) (today : String)
    (opms opgit : Nat → String → Except JsError α)
    (ophf : Nat → Option String → Except JsError α)
    (hne : tokens ≠ []) (hnd : tokens.Nodup) (hns : ∀ t ∈ tokens, t ≠ "")
    (hraw : getTokens raw = tokens)
    (hms : ∀ i t, ∃ e, opms i t = .error e ∧ msIsQuotaError e = true)
    (hgit : ∀ i t, ∃ e, opgit i t = .error e ∧ giteeIsQuotaError e = true)
    (hhf : ∀ i t, ∃ e, ophf i (some t) = .error e ∧ hfIsQuotaError e = true) :
    runWithMsTokenRetry opms tokens []
        = ⟨.error (jsError MS_TOKEN_EXHAUSTED_KEY), tokens,
            tokens.length + 1, tokens.length⟩ ∧
    runWithGiteeTokenRetry opgit tokens []
        = ⟨.error (jsError GITEE_TOKEN_EXHAUSTED_KEY), tokens,
            tokens.length + 1, tokens.length⟩ ∧
    runWithTokenRetry ophf tokens []
        = ⟨.error (jsError QUOTA_ERROR_KEY), tokens,
            tokens.length + 1, tokens.length⟩ ∧
    (getTokenStats raw ⟨today, tokens⟩).exhausted = tokens.length := by
  have hempty : tokens.isEmpty = false := isEmpty_false_of_ne_nil hne
  have key : ∀ (q : JsError → Bool) (k : String)
      (op : Nat → String → Except JsError α),
      (∀ i t, ∃ e, op i t = .error e ∧ q e = true) →
      runRetryLoop q k op tokens (tokens.length + 1) [] 0 0 none
        = ⟨.error (jsError k), tokens, tokens.length + 1, tokens.length⟩ := by
    intro q k op hop
    have h := runRetryLoop_all_quota q k op hop tokens [] [] 0 0 none
      (by simp) (by simp) hnd hns
    simpa using h
  refine ⟨?_, ?_, ?_, ?_⟩
  · simp only [runWithMsTokenRetry, hempty, Bool.false_eq_true, if_false]
    exact key _ _ _ hms
  · simp only [runWithGiteeTokenRetry, hempty, Bool.false_eq_true, if_false]
    exact key _ _ _ hgit
  · simp only [runWithTokenRetry, hempty, Bool.false_eq_true, if_false]
    exact key _ _ _ hhf
  · simp only [getTokenStats, hraw]
    have hfe : tokens.filter (fun t => decide (t ∈ tokens)) = tokens :=
      List.filter_eq_self.mpr (fun a ha => decide_eq_true ha)
    simp [hfe]

/-- C1 witness at concrete inputs: two distinct credentials, always-429
operation. -/
theorem c1_always_quota_exhausts_witness :
    runWithMsTokenRetry
        (fun _ _ => (Except.error (jsError "429") : Except JsError Nat))
        ["a", "b"] []
      = ⟨.error (jsError MS_TOKEN_EXHAUSTED_KEY), ["a", "b"], 3, 2⟩ :=
  (c1_always_quota_exhausts ["a", "b"] (some "a,b") "2024-05-02"
    (fun _ _ => Except.error (jsError "429"))
    (fun _ _ => Except.error (jsError "429"))
    (fun _ _ => Except.error (jsError "429"))
    (by decide) (by decide) (by decide) (by decide)
    (fun _ _ => ⟨jsError "429", rfl, by decide⟩)
    (fun _ _ => ⟨jsError "429", rfl, by decide⟩)
    (fun _ _ => ⟨jsError "429", rfl, by decide⟩)).1

/-- C2 counterexample: with tokens ["a", "a", "b"], the 3rd credential
"b" succeeding and every credential before it ("a") raising quota
failures, execute succeeds after 2 attempts, not k = 3 as the claim
states for every list. -/
theorem c2_counterexample :
    ¬ ((runWithMsTokenRetry
        (fun _ t => if t = "b" then Except.ok (0 : Nat)
          else Except.error (jsError "429"))
        ["a", "a", "b"] []).attempts = 3) := by
  decide

/-- C2 (amended): for every list of pairwise-distinct, nonempty-string
credentials decomposed as pre ++ target :: after (so target is the k-th
credential with k = pre.length + 1), starting from a fresh empty
exhaustion record, if the operation succeeds on target and raises a
quota-classified failure on every credential of pre, execute returns that
success after exactly k attempts and invocations, with exactly the k - 1
credentials of pre marked exhausted. -/
theorem c2_prefix_success {α : Type}
    (pre after : List String) (target : String) (v : α)
    (opms : Nat → String → Except JsError α)
    (ophf : Nat → Option String → Except JsError α)
    (hnd : (pre ++ target :: after).Nodup)
    (hns : ∀ t ∈ pre ++ target :: after, t ≠ "")
    (hmssucc : ∀ i, opms i target = .ok v)
    (hmsfail : ∀ i t, t ∈ pre →
      ∃ e, opms i t = .error e ∧ msIsQuotaError e = true)
    (hhfsucc : ∀ i, ophf i (some target) = .ok v)
    (hhffail : ∀ i t, t ∈ pre →
      ∃ e, ophf i (some t) = .error e ∧ hfIsQuotaError e = true) :
    runWithMsTokenRetry opms (pre ++ target :: after) []
        = ⟨.ok v, pre, pre.length + 1, pre.length + 1⟩ ∧
    runWithTokenRetry ophf (pre ++ target :: after) []
        = ⟨.ok v, pre, pre.length + 1, pre.length + 1⟩ := by
  have hne : (pre ++ target :: after) ≠ [] := by simp
  have hempty := isEmpty_false_of_ne_nil hne
  have hsub : List.Sublist (pre ++ [target]) (pre ++ target :: after) :=
    List.Sublist.append_left
      (List.Sublist.cons₂ target (List.nil_sublist after)) pre
  have hnd2 : (pre ++ [target]).Nodup := hnd.sublist hsub
  have key : ∀ (q : JsError → Bool) (k : String)
      (op : Nat → String → Except JsError α),
      (∀ i, op i target = .ok v) →
      (∀ i t, t ∈ pre → ∃ e, op i t = .error e ∧ q e = true) →
      runRetryLoop q k op (pre ++ target :: after)
          ((pre ++ target :: after).length + 1) [] 0 0 none
        = ⟨.ok v, pre, pre.length + 1, pre.length + 1⟩ := by
    intro q k op hs hf2
    have h := runRetryLoop_quota_prefix_success q k op target v hs pre [] after
      [] 0 0 ((pre ++ target :: after).length + 1) none hf2
      (by simp)
      (fun t ht hmem => by simp at hmem)
      (by simp)
      hnd2
      (fun t ht => hns t (by simp [ht]))
      (hns target (by simp))
      (by simp)
    simpa using h
  constructor
  · simp only [runWithMsTokenRetry, hempty, Bool.false_eq_true, if_false]
    exact key _ _ _ hmssucc hmsfail
  · simp only [runWithTokenRetry, hempty, Bool.false_eq_true, if_false]
    exact key _ _ _ hhfsucc hhffail

/-- C2 witness at concrete inputs: credentials ["a", "b"], "a" raises
quota failures, "b" (k = 2) succeeds. -/
theorem c2_prefix_success_witness :
    runWithMsTokenRetry
        (fun _ t => if t = "b" then Except.ok (0 : Nat)
          else Except.error (jsError "429"))
        ["a", "b"] [] = ⟨.ok 0, ["a"], 2, 2⟩ :=
  (c2_prefix_success ["a"] [] "b" (0 : Nat)
    (fun _ t => if t = "b" then Except.ok (0 : Nat)
      else Except.error (jsError "429"))
    (fun _ t => if t = some "b" then Except.ok (0 : Nat)
      else Except.error (jsError "429"))
    (by decide) (by decide)
    (fun _ => rfl)
    (fun i t ht => by
      have hta : t = "a" := by simpa using ht
      subst hta
      exact ⟨jsError "429", rfl, by decide⟩)
    (fun _ => rfl)
    (fun i t ht => by
      have hta : t = "a" := by simpa using ht
      subst hta
      exact ⟨jsError "429", rfl, by decide⟩)).1

/-- C3: when the first selected credential is available and the first
invocation of the operation raises a non-quota error, execute aborts with
exactly 1 attempt and 1 invocation, the exhaustion record unchanged, and
the very same error value (original message included) propagated to the
caller. -/
theorem c3_non_quota_aborts {α : Type}
    (opms : Nat → String → Except JsError α)
    (ophf : Nat → Option String → Except JsError α)
    (tokens exh : List String) (tok : String) (ems ehf : JsError)
    (hsel : nextAvailableToken tokens exh = some tok)
    (hms : opms 0 tok = .error ems) (hqms : msIsQuotaError ems = false)
    (hhf : ophf 0 (some tok) = .error ehf)
    (hqhf : hfIsQuotaError ehf = false) :
    runWithMsTokenRetry opms tokens exh = ⟨.error ems, exh, 1, 1⟩ ∧
    runWithTokenRetry ophf tokens exh = ⟨.error ehf, exh, 1, 1⟩ := by
  have hne : tokens ≠ [] := by
    intro h
    subst h
    exact Option.noConfusion hsel
  have hempty : tokens.isEmpty = false := isEmpty_false_of_ne_nil hne
  constructor
  · simp only [runWithMsTokenRetry, hempty, Bool.false_eq_true, if_false]
    rw [runRetryLoop_step_hard tokens.length 0 0 none hsel hms hqms]
  · simp only [runWithTokenRetry, hempty, Bool.false_eq_true, if_false]
    rw [runRetryLoop_step_hard tokens.length 0 0 none hsel hhf hqhf]

/-- C3 witness at concrete inputs: one credential, operation raising a
non-quota error with message "boom". -/
theorem c3_non_quota_aborts_witness :
    runWithMsTokenRetry
        (fun _ _ => (Except.error (jsError "boom") : Except JsError Nat))
        ["a"] [] = ⟨.error (jsError "boom"), [], 1, 1⟩ :=
  (c3_non_quota_aborts
    (fun _ _ => Except.error (jsError "boom"))
    (fun _ _ => Except.error (jsError "boom"))
    ["a"] [] "a" (jsError "boom") (jsError "boom")
    (by decide) rfl (by decide) rfl (by decide)).1

/-- C4 counterexample: the ModelScope classifier is case-sensitive; the
error message "Quota" contains the keyword "quota" in a different letter
casing, yet the classifier returns false, refuting the claimed
case-insensitive matching. -/
theorem c4_counterexample : msIsQuotaError ⟨some "Quota", none⟩ = false := by
  decide

/-- The provider keyword sets matched against the error message by the
ModelScope and Gitee classifiers. -/
def msQuotaKeywords : List String :=
  ["429", "quota", "credit", "Arrearage", "Bill"]

def giteeQuotaKeywords : List String := ["429", "quota", "credit"]

/-- C4 (amended): the ModelScope and Gitee quota classifiers return true
exactly when the numeric status field equals 429, or the error message
contains one of the provider keywords as a case-SENSITIVE contiguous
substring. -/
theorem c4_classifier_characterization (e : JsError) :
    (msIsQuotaError e = true ↔
      e.status = some 429 ∨ ∃ m, e.message = some m ∧
        ∃ p, p ∈ msQuotaKeywords ∧ ∃ l r, m.data = l ++ p.data ++ r) ∧
    (giteeIsQuotaError e = true ↔
      e.status = some 429 ∨ ∃ m, e.message = some m ∧
        ∃ p, p ∈ giteeQuotaKeywords ∧ ∃ l r, m.data = l ++ p.data ++ r) := by
  constructor
  · simp only [msIsQuotaError, Bool.or_eq_true, beq_iff_eq, msgIncludes_iff,
      msQuotaKeywords, List.mem_cons, List.not_mem_nil, or_false]
    constructor
    · rintro (((((⟨m, hm, l, r, h⟩ | hst) | ⟨m, hm, l, r, h⟩) |
        ⟨m, hm, l, r, h⟩) | ⟨m, hm, l, r, h⟩) | ⟨m, hm, l, r, h⟩)
      · exact Or.inr ⟨m, hm, "429", by simp, l, r, h⟩
      · exact Or.inl hst
      · exact Or.inr ⟨m, hm, "quota", by simp, l, r, h⟩
      · exact Or.inr ⟨m, hm, "credit", by simp, l, r, h⟩
      · exact Or.inr ⟨m, hm, "Arrearage", by simp, l, r, h⟩
      · exact Or.inr ⟨m, hm, "Bill", by simp, l, r, h⟩
    · rintro (hst | ⟨m, hm, p, hp, l, r, h⟩)
      · exact Or.inl (Or.inl (Or.inl (Or.inl (Or.inr hst))))
      · rcases hp with rfl | rfl | rfl | rfl | rfl
        · exact Or.inl (Or.inl (Or.inl (Or.inl (Or.inl ⟨m, hm, l, r, h⟩))))
        · exact Or.inl (Or.inl (Or.inl (Or.inr ⟨m, hm, l, r, h⟩)))
        · exact Or.inl (Or.inl (Or.inr ⟨m, hm, l, r, h⟩))
        · exact Or.inl (Or.inr ⟨m, hm, l, r, h⟩)
        · exact Or.inr ⟨m, hm, l, r, h⟩
  · simp only [giteeIsQuotaError, Bool.or_eq_true, beq_iff_eq,
      msgIncludes_iff, giteeQuotaKeywords, List.mem_cons, List.not_mem_nil,
      or_false]
    constructor
    · rintro (((⟨m, hm, l, r, h⟩ | hst) | ⟨m, hm, l, r, h⟩) |
        ⟨m, hm, l, r, h⟩)
      · exact Or.inr ⟨m, hm, "429", by simp, l, r, h⟩
      · exact Or.inl hst
      · exact Or.inr ⟨m, hm, "quota", by simp, l, r, h⟩
      · exact Or.inr ⟨m, hm, "credit", by simp, l, r, h⟩
    · rintro (hst | ⟨m, hm, p, hp, l, r, h⟩)
      · exact Or.inl (Or.inl (Or.inr hst))
      · rcases hp with rfl | rfl | rfl
        · exact Or.inl (Or.inl (Or.inl ⟨m, hm, l, r, h⟩))
        · exact Or.inl (Or.inr ⟨m, hm, l, r, h⟩)
        · exact Or.inr ⟨m, hm, l, r, h⟩
